import Mathlib

/-
Verification of the in-memory user store and HTTP handlers of `main.go`
(package main: `userCache`, `createUser`, `getUser`, `deleteUser`,
`handleRoot` and the `ServeMux` route registrations in `main`).

The Go map `userCache : map[int]User` is embedded as an association list
with Go-map semantics: assignment replaces the value at an existing key and
otherwise adds a fresh entry; `len` is the number of entries; `delete`
removes the entry of a key. Handlers become pure functions from the request
data and the cache to a `Response` (status code and body) and the new cache.
-/

namespace HttpGo

/-- User mirrors the Go struct `User` with its single field `Name`
(JSON tag `name`). -/
structure User where
  name : String
deriving DecidableEq, Repr

/-- UserCache models the backing storage of the global Go map
`userCache : map[int]User`: a list of key-value entries with unique keys. -/
abbrev UserCache := List (Int × User)

/-- keys lists the keys of the cache, in entry order. -/
def keys (s : UserCache) : List Int :=
  s.map Prod.fst

/-- mapGet models the Go map read `userCache[id]` (the comma-ok form
returns `none` exactly when `ok` is false). -/
def mapGet : UserCache → Int → Option User
  | [], _ => none
  | (k, v) :: rest, id => if k == id then some v else mapGet rest id

/-- mapSet models the Go map assignment `userCache[id] = u`: it replaces
the value stored at `id` when the key is present and otherwise adds a new
entry. -/
def mapSet : UserCache → Int → User → UserCache
  | [], id, u => [(id, u)]
  | (k, v) :: rest, id, u =>
    if k == id then (id, u) :: rest else (k, v) :: mapSet rest id u

/-- mapDelete models the Go builtin `delete(userCache, id)`: it removes the
entry of key `id` when present and otherwise does nothing. -/
def mapDelete : UserCache → Int → UserCache
  | [], _ => []
  | (k, v) :: rest, id => if k == id then rest else (k, v) :: mapDelete rest id

/-- mapLen models the Go builtin `len(userCache)`: the number of entries. -/
def mapLen (s : UserCache) : Nat :=
  s.length

/-- storeGet models the comma-ok read `user, ok := userCache[id]`: on a
miss the Go zero value `User{}` is returned together with `false`. -/
def storeGet (s : UserCache) (id : Int) : User × Bool :=
  match mapGet s id with
  | some u => (u, true)
  | none => ({ name := "" }, false)

/-- Response is the observable outcome a handler writes through
`http.ResponseWriter`: the status code and the body text (for `http.Error`
the body is the message). -/
structure Response where
  status : Nat
  body : String
deriving DecidableEq, Repr

/-- parseDigits reads a digit string left to right, accumulating its value;
it fails on any non-digit character. Helper for `atoi`. -/
def parseDigits : List Char → Nat → Option Nat
  | [], acc => some acc
  | c :: rest, acc =>
    if c.isDigit then parseDigits rest (acc * 10 + (c.toNat - 48)) else none

/-- atoi models Go `strconv.Atoi`: an optional sign followed by at least
one digit, rejected with `invalid syntax` otherwise, and rejected with
`value out of range` when the value does not fit a 64-bit int. The error
strings follow `NumError.Error()`. -/
def atoi (str : String) : Except String Int :=
  let syntaxErr : Except String Int :=
    Except.error ("strconv.Atoi: parsing \"" ++ str ++ "\": invalid syntax")
  let rangeErr : Except String Int :=
    Except.error ("strconv.Atoi: parsing \"" ++ str ++ "\": value out of range")
  let signed : Bool × List Char :=
    match str.toList with
    | '+' :: rest => (false, rest)
    | '-' :: rest => (true, rest)
    | cs => (false, cs)
  if signed.2.isEmpty then syntaxErr
  else
    match parseDigits signed.2 0 with
    | none => syntaxErr
    | some n =>
      let v : Int := if signed.1 then -(n : Int) else (n : Int)
      if v < -(2 ^ 63) ∨ 2 ^ 63 - 1 < v then rangeErr else Except.ok v

/-- hexDigit gives the lowercase hexadecimal digit of a value below 16. -/
def hexDigit (n : Nat) : Char :=
  if n < 10 then Char.ofNat (48 + n) else Char.ofNat (87 + n)

/-- jsonEscapeChar escapes one character of a JSON string the way Go
`encoding/json` does with its default HTML escaping: quote, backslash,
newline, carriage return and tab get two-character escapes, `<`, `>`, `&`
and the remaining control characters get `\u00XX` escapes, everything else
is emitted as itself. -/
def jsonEscapeChar (c : Char) : String :=
  if c = '"' then "\\\""
  else if c = '\\' then "\\\\"
  else if c = '\n' then "\\n"
  else if c = '\r' then "\\r"
  else if c = '\t' then "\\t"
  else if c = '<' ∨ c = '>' ∨ c = '&' ∨ c.toNat < 32 then
    "\\u00" ++ String.mk [hexDigit (c.toNat / 16), hexDigit (c.toNat % 16)]
  else String.mk [c]

/-- jsonMarshalUser models `json.Marshal(user)` at the fixed shape
`User{Name string}`: the object with the single key `name`, its value
escaped per `jsonEscapeChar`. Marshal reports an error only for
unsupported Go types or values; a struct holding one string field always
encodes (invalid UTF-8 is coerced, never rejected), so the result is
always `ok` — the `Except` wrapper only mirrors the `err` return the
handler checks. -/
def jsonMarshalUser (u : User) : Except String String :=
  Except.ok ("\x7b\"name\":\"" ++ String.join (u.name.toList.map jsonEscapeChar) ++ "\"\x7d")

/-- createUser embeds the Go handler `createUser`. Decoding the JSON body
into a `User` happens in `json.NewDecoder(r.Body).Decode(&user)`, whose
outcome is the `decoded` argument (`error e` when decoding fails, `ok u`
with the decoded user otherwise). A decode error yields 400 with the
error text; an empty name yields 400 `Name is required`; otherwise the
user is stored under key `len(userCache) + 1` and the handler answers 204
with no body. -/
def createUser (decoded : Except String User) (s : UserCache) : Response × UserCache :=
  match decoded with
  | Except.error e => ({ status := 400, body := e }, s)
  | Except.ok user =>
    if user.name = "" then ({ status := 400, body := "Name is required" }, s)
    else ({ status := 204, body := "" }, mapSet s ((mapLen s : Int) + 1) user)

/-- getUser embeds the Go handler `getUser`: it parses
`r.URL.Path[len("/users/"):]` (the path with its first 7 characters
dropped) with `strconv.Atoi`, answering 400 with the parse error on
failure; a missing id answers 404 `user not found`; otherwise the user is
marshalled, a marshal error would answer 500, and success answers 200 with
the JSON body. -/
def getUser (path : String) (s : UserCache) : Response × UserCache :=
  match atoi (path.drop 7) with
  | Except.error e => ({ status := 400, body := e }, s)
  | Except.ok id =>
    match mapGet s id with
    | none => ({ status := 404, body := "user not found" }, s)
    | some user =>
      match jsonMarshalUser user with
      | Except.error e => ({ status := 500, body := e }, s)
      | Except.ok j => ({ status := 200, body := j }, s)

/-- deleteUser embeds the Go handler `deleteUser`: it parses the path
suffix with `strconv.Atoi`, answering 400 with the parse error on failure;
when the id is absent it answers with body `user not found` and — as the
source passes `http.StatusBadRequest` although its comment says 404 —
status 400; when present the entry is deleted and it answers 204 with no
body. -/
def deleteUser (path : String) (s : UserCache) : Response × UserCache :=
  match atoi (path.drop 7) with
  | Except.error e => ({ status := 400, body := e }, s)
  | Except.ok id =>
    match mapGet s id with
    | none => ({ status := 400, body := "user not found" }, s)
    | some _ => ({ status := 204, body := "" }, mapDelete s id)

/-- runCreates runs a sequence of successful creates with no intervening
deletes: each step performs the insert of `createUser` (store under key
`len(userCache) + 1`, lines 124-127 of the source) and records the
assigned id. It returns the assigned ids in order and the final cache. -/
def runCreates : UserCache → List User → List Int × UserCache
  | s, [] => ([], s)
  | s, u :: rest =>
    let id : Int := (mapLen s : Int) + 1
    let r := runCreates (mapSet s id u) rest
    (id :: r.1, r.2)

/-! Helper lemmas about the map operations. -/

theorem mapGet_mapSet_self (s : UserCache) (id : Int) (u : User) :
    mapGet (mapSet s id u) id = some u := by
  induction s with
  | nil => simp [mapSet, mapGet]
  | cons p rest ih =>
    obtain ⟨k, v⟩ := p
    by_cases h : k = id
    · simp [mapSet, mapGet, h]
    · simp [mapSet, mapGet, h, ih]

theorem mapSet_of_not_mem_keys (s : UserCache) (id : Int) (u : User)
    (h : id ∉ keys s) : mapSet s id u = s ++ [(id, u)] := by
  induction s with
  | nil => simp [mapSet]
  | cons p rest ih =>
    obtain ⟨k, v⟩ := p
    simp only [keys, List.map_cons, List.mem_cons] at h
    push_neg at h
    have hk : ¬ (k = id) := fun he => h.1 he.symm
    simp only [mapSet, beq_iff_eq, if_neg hk]
    rw [ih]
    · rfl
    · simpa [keys] using h.2

theorem mapLen_mapSet_ge (s : UserCache) (id : Int) (u : User) :
    mapLen s ≤ mapLen (mapSet s id u) := by
  induction s with
  | nil => simp [mapSet, mapLen]
  | cons p rest ih =>
    obtain ⟨k, v⟩ := p
    by_cases h : k = id
    · simp [mapSet, mapLen, h]
    · simpa [mapSet, mapLen, h, Nat.succ_le_succ_iff] using ih

theorem runCreates_lower_bound (us : List User) (s : UserCache) :
    ∀ i ∈ (runCreates s us).1, (mapLen s : Int) < i := by
  induction us generalizing s with
  | nil => simp [runCreates]
  | cons u rest ih =>
    intro i hi
    simp only [runCreates, List.mem_cons] at hi
    rcases hi with hi | hi
    · omega
    · have h1 := ih (mapSet s ((mapLen s : Int) + 1) u) i hi
      have h2 := mapLen_mapSet_ge s ((mapLen s : Int) + 1) u
      have h3 : (mapLen s : Int) ≤ (mapLen (mapSet s ((mapLen s : Int) + 1) u) : Int) := by
        exact_mod_cast h2
      omega

theorem mapLen_mapSet_fresh (s : UserCache) (u : User)
    (h : ∀ k ∈ keys s, k ≤ (mapLen s : Int)) :
    mapLen (mapSet s ((mapLen s : Int) + 1) u) = mapLen s + 1 := by
  have hfresh : ((mapLen s : Int) + 1) ∉ keys s := fun hmem => by
    have := h _ hmem
    omega
  rw [mapSet_of_not_mem_keys s _ u hfresh]
  simp [mapLen]

theorem keys_bound_step (s : UserCache) (u : User)
    (h : ∀ k ∈ keys s, k ≤ (mapLen s : Int)) :
    ∀ k ∈ keys (mapSet s ((mapLen s : Int) + 1) u),
      k ≤ (mapLen (mapSet s ((mapLen s : Int) + 1) u) : Int) := by
  have hfresh : ((mapLen s : Int) + 1) ∉ keys s := fun hmem => by
    have := h _ hmem
    omega
  rw [mapSet_of_not_mem_keys s _ u hfresh]
  intro k hk
  simp only [keys, List.map_append, List.mem_append, List.map_cons,
    List.map_nil, List.mem_cons, List.not_mem_nil, or_false] at hk
  have hlen : mapLen (s ++ [((mapLen s : Int) + 1, u)]) = mapLen s + 1 := by
    simp [mapLen]
  rw [hlen]
  rcases hk with hk | hk
  · have := h k hk
    push_cast
    omega
  · subst hk
    push_cast
    omega

/-! Theorems for the claims. -/

/-- C1: for every call to the create path with a decodable body and a
non-empty name, the insert of `createUser` stores the new record under
key `count(entries) + 1`: the resulting cache is `mapSet` at
`len(userCache) + 1`, and reading that key back yields the new record. -/
theorem createUser_assigns_count_plus_one (s : UserCache) (u : User)
    (h : u.name ≠ "") :
    (createUser (Except.ok u) s).2 = mapSet s ((mapLen s : Int) + 1) u ∧
    mapGet (createUser (Except.ok u) s).2 ((mapLen s : Int) + 1) = some u := by
  refine ⟨by simp [createUser, h], ?_⟩
  simp [createUser, h, mapGet_mapSet_self]

/-- Witness for C1 at the concrete input `name = "Ada"`, empty cache. -/
theorem createUser_assigns_count_plus_one_witness :
    (User.mk "Ada").name ≠ "" ∧
    ((createUser (Except.ok (User.mk "Ada")) []).2 = mapSet [] 1 (User.mk "Ada") ∧
      mapGet (createUser (Except.ok (User.mk "Ada")) []).2 1 = some (User.mk "Ada")) := by
  refine ⟨by decide, ?_⟩
  exact createUser_assigns_count_plus_one [] (User.mk "Ada") (by decide)

/-- C2: concrete overwrite scenario. Create `alice` (id 1) and `bob`
(id 2), delete id 1; the cache now holds one entry, so the next create
computes id `1 + 1 = 2`, which is exactly the key still holding `bob`,
and the new create stores `carol` under that key, overwriting `bob`
without growing the cache. -/
theorem insert_after_delete_overwrites :
    (deleteUser "/users/1"
        (createUser (Except.ok (User.mk "bob"))
          (createUser (Except.ok (User.mk "alice")) []).2).2).2 = [(2, User.mk "bob")] ∧
    (mapLen [(2, User.mk "bob")] : Int) + 1 = 2 ∧
    (createUser (Except.ok (User.mk "carol")) [(2, User.mk "bob")]).2 =
      [(2, User.mk "carol")] ∧
    mapLen [(2, User.mk "carol")] = mapLen [(2, User.mk "bob")] :=
  ⟨rfl, rfl, rfl, rfl⟩

/-- C3: evaluating `deleteUser` at a parseable id absent from the store
(id 5, empty cache) shows the handler answers status 400 — the source
passes `http.StatusBadRequest` although its own comment announces a 404
Not Found — with body `user not found`. -/
theorem deleteUser_absent_responds_400 :
    deleteUser "/users/5" [] = ({ status := 400, body := "user not found" }, []) :=
  rfl

/-- C5: the create handler. A decode error answers 400 with the decode
error text; a decoded empty name answers 400 `Name is required`; a
decoded non-empty name performs exactly one insert (the cache becomes
`mapSet` at `len + 1` and nothing else) and answers 204 with the empty
body, which in particular never carries the assigned id. -/
theorem createUser_handler_spec (s : UserCache) :
    (∀ e, createUser (Except.error e) s = ({ status := 400, body := e }, s)) ∧
    (∀ u, u.name = "" →
      createUser (Except.ok u) s = ({ status := 400, body := "Name is required" }, s)) ∧
    (∀ u, u.name ≠ "" →
      createUser (Except.ok u) s =
        ({ status := 204, body := "" }, mapSet s ((mapLen s : Int) + 1) u)) := by
  refine ⟨fun e => rfl, fun u h => by simp [createUser, h], fun u h => by simp [createUser, h]⟩

/-- Witness for C5: the success branch at `name = "Ada"`, empty cache. -/
theorem createUser_handler_spec_witness :
    (User.mk "Ada").name ≠ "" ∧
    createUser (Except.ok (User.mk "Ada")) [] =
      ({ status := 204, body := "" }, mapSet [] 1 (User.mk "Ada")) :=
  ⟨by decide, (createUser_handler_spec []).2.2 (User.mk "Ada") (by decide)⟩

/-- C6: round trip. Creating a user with a non-empty name and then
performing the store read (`user, ok := userCache[id]`) at the id the
create assigned returns `ok = true` and a record carrying the created
name, from any starting cache. -/
theorem create_then_get_roundtrip (s : UserCache) (u : User) (h : u.name ≠ "") :
    (storeGet (createUser (Except.ok u) s).2 ((mapLen s : Int) + 1)).2 = true ∧
    (storeGet (createUser (Except.ok u) s).2 ((mapLen s : Int) + 1)).1.name = u.name := by
  simp [storeGet, createUser, h, mapGet_mapSet_self]

/-- Witness for C6 at `name = "Bob"` over a one-entry cache. -/
theorem create_then_get_roundtrip_witness :
    (User.mk "Bob").name ≠ "" ∧
    ((storeGet (createUser (Except.ok (User.mk "Bob")) [(1, User.mk "x")]).2 2).2 = true ∧
      (storeGet (createUser (Except.ok (User.mk "Bob")) [(1, User.mk "x")]).2 2).1.name =
        (User.mk "Bob").name) :=
  ⟨by decide, create_then_get_roundtrip [(1, User.mk "x")] (User.mk "Bob") (by decide)⟩

/-- C7 as stated is false: from the store state `[(2, v)]` — a state
reachable after deletes — two successive creates both compute and use
id 2, so the two created records do not occupy two distinct identifiers. -/
theorem runCreates_ids_can_collide :
    ¬ ((runCreates [(2, User.mk "v")] [User.mk "x", User.mk "y"]).1).Nodup := by
  decide

/-- C7 amended: from any store state whose keys are bounded by the entry
count — in particular every state built by creates alone, such as the
empty store — a sequence of successful creates with no intervening
deletes assigns pairwise distinct identifiers. -/
theorem runCreates_ids_nodup (us : List User) (s : UserCache)
    (h : ∀ k ∈ keys s, k ≤ (mapLen s : Int)) :
    ((runCreates s us).1).Nodup := by
  induction us generalizing s with
  | nil => simp [runCreates]
  | cons u rest ih =>
    simp only [runCreates, List.nodup_cons]
    constructor
    · intro hmem
      have hlt := runCreates_lower_bound rest (mapSet s ((mapLen s : Int) + 1) u) _ hmem
      rw [mapLen_mapSet_fresh s u h] at hlt
      push_cast at hlt
      omega
    · exact ih _ (keys_bound_step s u h)

/-- Witness for C7 amended: three creates from the empty store get the
distinct ids 1, 2, 3. -/
theorem runCreates_ids_nodup_witness :
    (∀ k ∈ keys ([] : UserCache), k ≤ (mapLen ([] : UserCache) : Int)) ∧
    ((runCreates [] [User.mk "a", User.mk "b", User.mk "c"]).1).Nodup :=
  ⟨by simp [keys], runCreates_ids_nodup [User.mk "a", User.mk "b", User.mk "c"] []
    (by simp [keys])⟩

/-- C8: for every request whose id segment parses and names a key absent
from the cache, the delete handler answers `user not found` and performs
no mutation — the cache it returns is exactly the cache it was given, so
in particular the entry count is unchanged. -/
theorem deleteUser_absent_no_mutation (path : String) (id : Int) (s : UserCache)
    (h1 : atoi (path.drop 7) = Except.ok id) (h2 : mapGet s id = none) :
    deleteUser path s = ({ status := 400, body := "user not found" }, s) := by
  simp [deleteUser, h1, h2]

/-- Witness for C8 at path `/users/7` over the empty cache. -/
theorem deleteUser_absent_no_mutation_witness :
    atoi (String.drop "/users/7" 7) = Except.ok 7 ∧
    mapGet [] 7 = none ∧
    deleteUser "/users/7" [] = ({ status := 400, body := "user not found" }, []) :=
  ⟨rfl, rfl, deleteUser_absent_no_mutation "/users/7" 7 [] rfl rfl⟩

/-- C9: marshalling a stored `User` always succeeds — `jsonMarshalUser`
returns `ok` on every record — so the 500 serialization-failure branch of
the get handler is unreachable: no request and no cache make `getUser`
answer status 500. -/
theorem getUser_serialization_never_fails (path : String) (s : UserCache) :
    (∀ u, (jsonMarshalUser u).isOk = true) ∧ ((getUser path s).1).status ≠ 500 := by
  refine ⟨fun u => rfl, ?_⟩
  unfold getUser
  cases hatoi : atoi (path.drop 7) with
  | error e => simp
  | ok id =>
    cases hget : mapGet s id with
    | none => simp [hget]
    | some user => simp [hget, jsonMarshalUser]

end HttpGo
